import Mathlib

/-! Shallow embedding of the GafferPy manager-analysis pipeline (`Gaffer.py`).

Numeric statistic values are modelled as rationals; pandas missing values
(NaN / None) as `Option`; the StatsBomb API calls (`sb.matches`,
`sb.team_match_stats`) as oracle functions passed in as parameters; a pandas
exception that escapes a function as an `Option.none` result of that function.
-/

/-- Python regular-expression token.  pandas `Series.str.contains` treats its
pattern argument as a regular expression (`regex=True` is the default), so the
manager name is compiled by Python `re`.  We model the fragment of Python
regexes consisting of literal characters and the `.` wildcard, which is exact
for every pattern built only from those characters; all patterns appearing in
the theorems below stay inside this fragment. -/
inductive RTok where
  | lit (c : Char)
  | dot
deriving DecidableEq

def tokMatch : RTok → Char → Bool
  | .dot, _ => true
  | .lit c, d => c = d

/-- whether the token list matches a prefix of the character list. -/
def matchHere : List RTok → List Char → Bool
  | [], _ => true
  | _ :: _, [] => false
  | t :: ts, c :: cs => tokMatch t c && matchHere ts cs

/-- Python `re.search`: the token list matches somewhere inside the character
list. -/
def reSearch (toks : List RTok) : List Char → Bool
  | [] => matchHere toks []
  | c :: cs => matchHere toks (c :: cs) || reSearch toks cs

def compilePat (p : String) : List RTok :=
  p.data.map (fun c => if c = '.' then RTok.dot else RTok.lit c)

/-- pandas `Series.str.contains pat` on a present (non-null) string value:
Python `re.search pat s` finds a match somewhere in `s`. -/
def strContains (pat s : String) : Bool :=
  reSearch (compilePat pat) s.data

/-- pandas `Series.str.contains pat na=False` on a possibly-null value: a
missing manager field never matches. -/
def containsNa (pat : String) (s : Option String) : Bool :=
  match s with
  | none => false
  | some t => strContains pat t

/-- whether the first character list is a prefix of the second (boolean). -/
def leadsWith : List Char → List Char → Bool
  | [], _ => true
  | _ :: _, [] => false
  | c :: cs, d :: ds => c = d && leadsWith cs ds

def hasSubAux (pat : List Char) : List Char → Bool
  | [] => leadsWith pat []
  | c :: cs => leadsWith pat (c :: cs) || hasSubAux pat cs

/-- Modelled from the spec: plain, case-sensitive substring containment — the
relation the spec says the match-selection predicate uses for the manager
name. -/
def plainSub (pat s : String) : Bool :=
  hasSubAux pat.data s.data

/-- the characters Python `re` treats as metacharacters; a pattern avoiding all
of them (and hence also avoiding `.`) is matched literally by `re.search`. -/
def isMeta (c : Char) : Bool :=
  c ∈ ['.', '^', '$', '*', '+', '?', '[', ']', '\\', '|', '(', ')', '\x7b', '\x7d']

/-- one row of the frame returned by `sb.matches` (only the fields the pipeline
reads). -/
structure RawMatch where
  match_id : Nat
  home_team : String
  away_team : String
  home_managers : Option String
  away_managers : Option String
deriving DecidableEq, Repr

/-- a match row after `Gaffer.py` lines 73-74 tagged it with the display names
of its competition and season. -/
structure MatchRecord where
  match_id : Nat
  home_team : String
  away_team : String
  home_managers : Option String
  away_managers : Option String
  competition : String
  season : String
deriving DecidableEq, Repr

def tagMatch (comp seas : String) (r : RawMatch) : MatchRecord :=
  ⟨r.match_id, r.home_team, r.away_team, r.home_managers, r.away_managers, comp, seas⟩

def tagMatches (comp seas : String) (ms : List RawMatch) : List MatchRecord :=
  ms.map (tagMatch comp seas)

/-- one roster row (a ManagerAssignment candidate): the shape produced at
`Gaffer.py` lines 77-84.  `manager` is `none` when the manager column was
null. -/
structure MRow where
  team_name : String
  manager : Option String
  competition : String
  season : String
deriving DecidableEq, Repr

def homeRow (m : MatchRecord) : MRow :=
  ⟨m.home_team, m.home_managers, m.competition, m.season⟩

def awayRow (m : MatchRecord) : MRow :=
  ⟨m.away_team, m.away_managers, m.competition, m.season⟩

/-- pandas `drop_duplicates` with the default keep policy, on the key computed
by `k`: keep the first row of each key, preserving order. -/
def dropDupBy {α β : Type} [DecidableEq β] (k : α → β) : List α → List α
  | [] => []
  | x :: xs => x :: dropDupBy k (xs.filter (fun y => k y ≠ k x))
termination_by l => l.length
decreasing_by
  simp only [List.length_cons]
  exact Nat.lt_succ_of_le (List.length_filter_le _ _)

/-- lines 77-84: home and away candidate assignments of one competition/season
iteration, concatenated and de-duplicated (exact duplicate rows removed). -/
def iterRoster (tagged : List MatchRecord) : List MRow :=
  dropDupBy (fun r => r) (tagged.map homeRow ++ tagged.map awayRow)

/-- one iteration of the nested loop of `fetch_manager_data` (lines 65-86):
`none` when `sb.matches` raised for this pair (caught: warn and skip). -/
def iterBlock (oracle : Nat → Nat → Option (List RawMatch)) (c s : Nat × String) :
    Option (List MRow × List MatchRecord) :=
  (oracle c.1 s.1).map (fun ms => (iterRoster (tagMatches c.2 s.2 ms), tagMatches c.2 s.2 ms))

/-- the `fetch_manager_data` function (lines 61-88).  The result is `none` when
every competition/season pair failed: `pd.concat` over the empty list of
collected frames raises `ValueError`, which sits outside the per-pair `try`
and so escapes to the caller. -/
def fetchManagerData (oracle : Nat → Nat → Option (List RawMatch))
    (competitions seasons : List (Nat × String)) :
    Option (List MRow × List MatchRecord) :=
  let blocks := (competitions.flatMap (fun c => seasons.map (fun s => (c, s)))).filterMap
    (fun p => iterBlock oracle p.1 p.2)
  if blocks.isEmpty then none
  else some ((blocks.map Prod.fst).flatten, (blocks.map Prod.snd).flatten)

/-- the nine tracked numeric statistic columns (the keys of `METRICS`). -/
inductive Metric where
  | op_xg
  | sp_xg
  | ppda
  | counter_shots
  | op_shot_dist
  | op_shot_dist_conceded
  | fhalf_pressures
  | possession
  | np_xg_conceded
deriving DecidableEq, Fintype, Repr

/-- one row of `sb.team_match_stats` (only the fields the pipeline reads). -/
structure TeamStat where
  team_name : String
  stats : Metric → ℚ

/-- the match-selection predicate of `fetch_team_stats` (lines 98-101). -/
def teamMatchPred (team mgr : String) (m : MatchRecord) : Bool :=
  (m.home_team = team && containsNa mgr m.home_managers) ||
  (m.away_team = team && containsNa mgr m.away_managers)

def teamMatchesFor (matchTable : List MatchRecord) (team mgr : String) : List MatchRecord :=
  matchTable.filter (teamMatchPred team mgr)

/-- pandas `Series.unique()` on the `match_id` column: first-occurrence order,
duplicates dropped. -/
def uniqueIds (ids : List Nat) : List Nat :=
  dropDupBy (fun i => i) ids

/-- lines 104-114: fetch the team statistics of each distinct selected match and
keep the rows of the assignment's team; a failed fetch (`oracle _ = none`) is
silently skipped. -/
def collectStats (oracle : Nat → Option (List TeamStat)) (team : String) (ids : List Nat) :
    List TeamStat :=
  ids.flatMap (fun i =>
    match oracle i with
    | none => []
    | some ts => ts.filter (fun t => t.team_name = team))

/-- one aggregated row per assignment (the fields of `avg_stats`, lines
116-124). -/
structure AggRow where
  manager : String
  team_name : String
  competition : String
  season : String
  games_managed : Nat
  stats : Metric → ℚ

/-- the statistics rows actually collected for an assignment (the concatenation
of the per-match frames of lines 104-114). -/
def collectedFor (oracle : Nat → Option (List TeamStat)) (matchTable : List MatchRecord)
    (team mgr : String) : List TeamStat :=
  collectStats oracle team
    (uniqueIds ((teamMatchesFor matchTable team mgr).map (fun m => m.match_id)))

/-- the loop body of `fetch_team_stats` for one roster row whose manager is
present (lines 96-124): `none` when no statistics rows were collected, in which
case the assignment is dropped, not zero-filled.  `games_managed` is
`len(team_matches)`, the number of selected match rows. -/
def aggFor (oracle : Nat → Option (List TeamStat)) (matchTable : List MatchRecord)
    (team mgr comp seas : String) : Option AggRow :=
  if (collectedFor oracle matchTable team mgr).isEmpty then none
  else some
    { manager := mgr, team_name := team, competition := comp, season := seas,
      games_managed := (teamMatchesFor matchTable team mgr).length,
      stats := fun m =>
        ((collectedFor oracle matchTable team mgr).map (fun t => t.stats m)).sum /
          (collectedFor oracle matchTable team mgr).length }

/-- the `fetch_team_stats` function (lines 90-126).  A roster row whose manager
is null makes pandas `str.contains` raise a `TypeError` (the pattern must be a
string); that uncaught exception is modelled as an overall `none`. -/
def fetchTeamStats (oracle : Nat → Option (List TeamStat)) (matchTable : List MatchRecord) :
    List MRow → Option (List AggRow)
  | [] => some []
  | row :: rest =>
    match row.manager with
    | none => none
    | some mgr =>
      match fetchTeamStats oracle matchTable rest with
      | none => none
      | some out =>
        match aggFor oracle matchTable row.team_name mgr row.competition row.season with
        | none => some out
        | some agg => some (agg :: out)

/-- the merge key of line 168: `["team_name", "manager", "competition", "season"]`,
read off a roster row. -/
def mkey (r : MRow) : String × Option String × String × String :=
  (r.team_name, r.manager, r.competition, r.season)

/-- the merge key of line 168 read off an aggregated row. -/
def akey (a : AggRow) : String × Option String × String × String :=
  (a.team_name, some a.manager, a.competition, a.season)

/-- one row of the merged frame: the roster columns plus, when the key matched,
the aggregate columns (null otherwise). -/
structure MergedRow where
  left : MRow
  agg : Option AggRow

/-- the merged rows produced for one left row: one row per matching right row,
or a single row with null statistic columns when no right key matches. -/
def mergeRowsFor (right : List AggRow) (l : MRow) : List MergedRow :=
  match right.filter (fun a => akey a = mkey l) with
  | [] => [⟨l, none⟩]
  | rs => rs.map (fun a => ⟨l, some a⟩)

/-- `pd.merge manager_data team_stats on=keys how="left"` (line 168): every
left row is kept, once per matching right row, and a left row with no key match
gets null statistic columns. -/
def leftMerge (left : List MRow) (right : List AggRow) : List MergedRow :=
  left.flatMap (mergeRowsFor right)

/-- one row of `cleaned_data` after the column selection and rename of lines
169-170: identity fields, `games_managed`, and the nine metric columns (all
null where the left join found no aggregate). -/
structure CRow where
  team_name : String
  manager : Option String
  games_managed : Option Nat
  competition : String
  season : String
  stats : Metric → Option ℚ

def toCRow (mr : MergedRow) : CRow :=
  match mr.agg with
  | none =>
    ⟨mr.left.team_name, mr.left.manager, none, mr.left.competition, mr.left.season,
      fun _ => none⟩
  | some a =>
    ⟨mr.left.team_name, mr.left.manager, some a.games_managed, mr.left.competition,
      mr.left.season, fun m => some (a.stats m)⟩

/-- pandas `>=` against a possibly-null count: NaN compares false. -/
def geNa (v : Option Nat) (m : Nat) : Bool :=
  match v with
  | none => false
  | some x => m ≤ x

/-- line 187: the row survives when its manager is neither null nor the empty
string. -/
def managerPresent (r : CRow) : Bool :=
  match r.manager with
  | none => false
  | some s => s ≠ ""

/-- the de-duplication key of line 190: `["manager", "team_name", "competition"]`. -/
def ckey (r : CRow) : Option String × String × String :=
  (r.manager, r.team_name, r.competition)

/-- one displayed row after line 193 dropped the `season` column. -/
structure FRow where
  team_name : String
  manager : Option String
  games_managed : Option Nat
  competition : String
  stats : Metric → Option ℚ

def dropSeason (r : CRow) : FRow :=
  ⟨r.team_name, r.manager, r.games_managed, r.competition, r.stats⟩

/-- the (manager, team_name, competition) key read off a displayed row. -/
def fkey (r : FRow) : Option String × String × String :=
  (r.manager, r.team_name, r.competition)

/-- lines 187-193: remove rows with null or empty manager, de-duplicate on
(manager, team_name, competition) keeping the first row of each key, then drop
the season column. -/
def cleanStage (rows : List CRow) : List FRow :=
  (dropDupBy ckey (rows.filter managerPresent)).map dropSeason

/-- pandas `Series.between lo hi` (inclusive on both ends, in the argument
order given, as pandas evaluates `lo <= x <= hi`) against a possibly-null
value: NaN compares false. -/
def betweenNa (b : ℚ × ℚ) (v : Option ℚ) : Bool :=
  match v with
  | none => false
  | some x => b.1 ≤ x && x ≤ b.2

/-- the slider configuration consumed at lines 199-210 (`st.session_state`). -/
structure FilterCfg where
  min_matches : Nat
  op_xg_range : ℚ × ℚ
  sp_xg_range : ℚ × ℚ
  ppda_range : ℚ × ℚ
  counter_shots_range : ℚ × ℚ
  shot_distance_range : ℚ × ℚ
  shot_distance_conceded_range : ℚ × ℚ
  fhalf_pressure_range : ℚ × ℚ
  possession_range : ℚ × ℚ
  xg_conceded_range : ℚ × ℚ

/-- the conjunction of the ten conditions of lines 200-209, each labelled
column paired with its slider in source order. -/
def passRow (cfg : FilterCfg) (r : FRow) : Bool :=
  geNa r.games_managed cfg.min_matches &&
  betweenNa cfg.op_xg_range (r.stats Metric.op_xg) &&
  betweenNa cfg.sp_xg_range (r.stats Metric.sp_xg) &&
  betweenNa cfg.ppda_range (r.stats Metric.ppda) &&
  betweenNa cfg.counter_shots_range (r.stats Metric.counter_shots) &&
  betweenNa cfg.shot_distance_range (r.stats Metric.op_shot_dist) &&
  betweenNa cfg.shot_distance_conceded_range (r.stats Metric.op_shot_dist_conceded) &&
  betweenNa cfg.fhalf_pressure_range (r.stats Metric.fhalf_pressures) &&
  betweenNa cfg.possession_range (r.stats Metric.possession) &&
  betweenNa cfg.xg_conceded_range (r.stats Metric.np_xg_conceded)

/-- `filtered_data` (lines 199-210). -/
def filteredData (cfg : FilterCfg) (rows : List FRow) : List FRow :=
  rows.filter (passRow cfg)

/-- the outcome presented after filtering. -/
inductive DisplayResult where
  | noMatches
  | table (rows : List FRow)

/-- lines 212-216: an empty filter result is reported as an explicit no-matches
message instead of a table. -/
def displayOutcome (rows : List FRow) : DisplayResult :=
  if rows.isEmpty then DisplayResult.noMatches else DisplayResult.table rows

/-- the per-metric slider range of a configuration (used to state the filter
property uniformly over the nine metrics). -/
def rangeFor (cfg : FilterCfg) : Metric → ℚ × ℚ
  | .op_xg => cfg.op_xg_range
  | .sp_xg => cfg.sp_xg_range
  | .ppda => cfg.ppda_range
  | .counter_shots => cfg.counter_shots_range
  | .op_shot_dist => cfg.shot_distance_range
  | .op_shot_dist_conceded => cfg.shot_distance_conceded_range
  | .fhalf_pressures => cfg.fhalf_pressure_range
  | .possession => cfg.possession_range
  | .np_xg_conceded => cfg.xg_conceded_range

/-- Modelled from the spec: `str.contains` lifted over a possibly-null field
with plain substring semantics (the semantics the spec asserts). -/
def plainSubNa (pat : String) (s : Option String) : Bool :=
  match s with
  | none => false
  | some t => plainSub pat t

/-- Modelled from the spec: the match-selection predicate as the spec words it,
with the manager name taken as a plain substring of the manager field. -/
def specMatchPred (team mgr : String) (m : MatchRecord) : Bool :=
  (m.home_team = team && plainSubNa mgr m.home_managers) ||
  (m.away_team = team && plainSubNa mgr m.away_managers)

/-! Concrete fixtures used by the witnesses and counterexamples below. -/

def c1Match : MatchRecord := ⟨1, "T", "U", some "M", some "Z", "C", "S"⟩

/-- a match set containing the same match row (same match identifier) twice. -/
def c1Matches : List MatchRecord := [c1Match, c1Match]

def c1Roster : List MRow := [⟨"T", some "M", "C", "S"⟩]

def c1Oracle : Nat → Option (List TeamStat) :=
  fun i => if i = 1 then some [⟨"T", fun _ => 1⟩] else none

def c2Match (i : Nat) : MatchRecord := ⟨i, "T", "U", some "M", some "Z", "C", "S"⟩

/-- the fixture of the spec: three matches whose collected statistic values are
1.0, 2.0 and 3.0. -/
def c2Matches : List MatchRecord := [c2Match 1, c2Match 2, c2Match 3]

def c2Roster : List MRow := [⟨"T", some "M", "C", "S"⟩]

def c2Oracle : Nat → Option (List TeamStat) :=
  fun i => some [⟨"T", fun _ => (i : ℚ)⟩]

def c2Out : List AggRow := (fetchTeamStats c2Oracle c2Matches c2Roster).getD []

def c3Matches : List MatchRecord := [⟨1, "T", "X", some "M", some "Z", "C", "S"⟩]

/-- a roster with one assignment that gets an aggregate and one that does not. -/
def c3Roster : List MRow := [⟨"T", some "M", "C", "S"⟩, ⟨"U", some "N", "C", "S"⟩]

def c3Oracle : Nat → Option (List TeamStat) :=
  fun i => if i = 1 then some [⟨"T", fun _ => 1⟩] else none

def c3Ts : List AggRow := (fetchTeamStats c3Oracle c3Matches c3Roster).getD []

/-- a displayed row whose open-play xG is `v` and whose every other metric is 1,
with 5 games managed. -/
def sampleRow (v : ℚ) : FRow :=
  ⟨"Team", some "Boss", some 5, "League", fun m =>
    match m with
    | Metric.op_xg => some v
    | _ => some 1⟩

/-- bounds of the spec fixture: open-play xG in the inclusive range 0 to 3, all
other metrics in the range 0 to 2, at least one game managed. -/
def c4Cfg : FilterCfg :=
  ⟨1, (0, 3), (0, 2), (0, 2), (0, 2), (0, 2), (0, 2), (0, 2), (0, 2), (0, 2)⟩

/-- rows whose open-play xG values are -1, 0, 1.5, 3 and 4. -/
def c4Rows : List FRow :=
  [sampleRow (-1), sampleRow 0, sampleRow (3 / 2), sampleRow 3, sampleRow 4]

/-- a row whose PPDA is 9 and whose every other metric is 1. -/
def c6Row : FRow :=
  ⟨"Team", some "Boss", some 10, "League", fun m =>
    match m with
    | Metric.ppda => some 9
    | _ => some 1⟩

/-- the default slider configuration of line 150: the PPDA bound is the pair
(18.0, 0.0), listed high endpoint first. -/
def c6Cfg : FilterCfg :=
  ⟨1, (0, 2), (0, 2), (18, 0), (0, 2), (0, 2), (0, 2), (0, 2), (0, 2), (0, 2)⟩

def c7Oracle : Nat → Nat → Option (List RawMatch) :=
  fun c s => if c = 1 && s = 10 then some [⟨5, "H", "A", some "MH", some "MA"⟩] else none

def c7Comps : List (Nat × String) := [(1, "A")]

def c7Seasons : List (Nat × String) := [(10, "S")]

def c7Res : List MRow × List MatchRecord :=
  (fetchManagerData c7Oracle c7Comps c7Seasons).getD ([], [])

/-- a match whose home manager field is the string "AX B". -/
def c5Match : MatchRecord := ⟨1, "T", "U", some "AX B", some "Z", "C", "S"⟩

/-- a match whose home manager field is the multi-manager string "A, B". -/
def c5MultiMatch : MatchRecord := ⟨2, "T", "U", some "A, B", some "Z", "C", "S"⟩

/-! Basic properties of the de-duplication combinator. -/

theorem dropDupBy_sublist {α β : Type} [DecidableEq β] (k : α → β) (l : List α) :
    (dropDupBy k l).Sublist l := by
  induction l using dropDupBy.induct k with
  | case1 => simp [dropDupBy]
  | case2 x xs ih =>
    rw [dropDupBy]
    exact (ih.trans (List.filter_sublist xs)).cons₂ x

theorem dropDupBy_mem {α β : Type} [DecidableEq β] {k : α → β} {l : List α} {a : α}
    (h : a ∈ dropDupBy k l) : a ∈ l :=
  (dropDupBy_sublist k l).mem h

theorem dropDupBy_key_nodup {α β : Type} [DecidableEq β] (k : α → β) (l : List α) :
    ((dropDupBy k l).map k).Nodup := by
  induction l using dropDupBy.induct k with
  | case1 => simp [dropDupBy]
  | case2 x xs ih =>
    rw [dropDupBy, List.map_cons, List.nodup_cons]
    refine ⟨fun hx => ?_, ih⟩
    rw [List.mem_map] at hx
    obtain ⟨a, ha, hka⟩ := hx
    have := List.of_mem_filter (dropDupBy_mem ha)
    simp [hka] at this

theorem dropDupBy_nodup {α β : Type} [DecidableEq β] (k : α → β) (l : List α) :
    (dropDupBy k l).Nodup :=
  (dropDupBy_key_nodup k l).of_map k

theorem find?_of_filter {α : Type} (p q : α → Bool) (xs : List α) (a : α)
    (hpq : ∀ y, p y = true → q y = true)
    (h : (xs.filter q).find? p = some a) : xs.find? p = some a := by
  induction xs with
  | nil => simp [List.filter] at h
  | cons x xs ih =>
    by_cases hq : q x = true
    · rw [List.filter_cons_of_pos hq] at h
      cases hp : p x with
      | true =>
        simp only [List.find?_cons, hp] at h ⊢
        exact h
      | false =>
        simp only [List.find?_cons, hp] at h ⊢
        exact ih h
    · have hp : p x = false := by
        cases hpx : p x with
        | true => exact absurd (hpq x hpx) hq
        | false => rfl
      rw [List.filter_cons_of_neg (by simpa using hq)] at h
      simp only [List.find?_cons, hp]
      exact ih h

theorem dropDupBy_find {α β : Type} [DecidableEq β] (k : α → β) (l : List α) (a : α)
    (h : a ∈ dropDupBy k l) :
    l.find? (fun x => decide (k x = k a)) = some a := by
  induction l using dropDupBy.induct k with
  | case1 => simp [dropDupBy] at h
  | case2 x xs ih =>
    rw [dropDupBy] at h
    rcases List.mem_cons.1 h with rfl | h
    · simp [List.find?_cons]
    · have hka : k a ≠ k x := by
        have := List.of_mem_filter (dropDupBy_mem h)
        simpa using this
      have hpx : (decide (k x = k a)) = false := decide_eq_false (fun hx => hka hx.symm)
      simp only [List.find?_cons, hpx]
      refine find?_of_filter _ _ xs a (fun y hy => ?_) (ih h)
      have hy2 : k y = k a := of_decide_eq_true hy
      simp [hy2, hka]

theorem dropDupBy_eq_self {α β : Type} [DecidableEq β] (k : α → β) (l : List α)
    (h : (l.map k).Nodup) : dropDupBy k l = l := by
  induction l with
  | nil => rw [dropDupBy]
  | cons x xs ih =>
    rw [List.map_cons, List.nodup_cons] at h
    rw [dropDupBy]
    have hfil : xs.filter (fun y => k y ≠ k x) = xs := by
      rw [List.filter_eq_self]
      intro a ha
      have : k a ≠ k x := by
        intro hk
        exact h.1 (hk ▸ List.mem_map_of_mem k ha)
      simpa using this
    rw [hfil, ih h.2]

/-! Properties of the regex fragment: on patterns free of metacharacters,
`re.search` agrees with plain substring containment. -/

theorem matchHere_lit (p : List Char) : ∀ cs : List Char,
    matchHere (p.map RTok.lit) cs = leadsWith p cs := by
  induction p with
  | nil => intro cs; rfl
  | cons c p ih =>
    intro cs
    cases cs with
    | nil => rfl
    | cons d ds => simp [matchHere, leadsWith, tokMatch, ih]

theorem reSearch_lit (p : List Char) : ∀ cs : List Char,
    reSearch (p.map RTok.lit) cs = hasSubAux p cs := by
  intro cs
  induction cs with
  | nil => simp [reSearch, hasSubAux, matchHere_lit]
  | cons c cs ih => simp [reSearch, hasSubAux, matchHere_lit, ih]

theorem compilePat_literal (pat : String) (hp : ∀ c ∈ pat.data, isMeta c = false) :
    compilePat pat = pat.data.map RTok.lit := by
  unfold compilePat
  apply List.map_congr_left
  intro c hc
  have hm := hp c hc
  have hdot : c ≠ '.' := by
    intro h
    rw [h] at hm
    simp [isMeta] at hm
  simp [hdot]

theorem strContains_literal (pat s : String) (hp : ∀ c ∈ pat.data, isMeta c = false) :
    strContains pat s = plainSub pat s := by
  unfold strContains plainSub
  rw [compilePat_literal pat hp, reSearch_lit]

/-! Characterization of `fetch_team_stats`. -/

/-- whether the loop body emits an aggregated row for this roster row: its
manager is present and at least one statistics row was collected. -/
def emits (oracle : Nat → Option (List TeamStat)) (mt : List MatchRecord) (row : MRow) : Bool :=
  match row.manager with
  | none => false
  | some mgr => !(collectedFor oracle mt row.team_name mgr).isEmpty

theorem aggFor_eq (oracle : Nat → Option (List TeamStat)) (mt : List MatchRecord)
    (team mgr comp seas : String) (agg : AggRow)
    (h : aggFor oracle mt team mgr comp seas = some agg) :
    agg.manager = mgr ∧ agg.team_name = team ∧ agg.competition = comp ∧ agg.season = seas ∧
    agg.games_managed = (teamMatchesFor mt team mgr).length ∧
    collectedFor oracle mt team mgr ≠ [] ∧
    ∀ met : Metric,
      agg.stats met = ((collectedFor oracle mt team mgr).map (fun t => t.stats met)).sum /
        (collectedFor oracle mt team mgr).length := by
  rw [aggFor] at h
  by_cases hd : (collectedFor oracle mt team mgr).isEmpty
  · rw [if_pos hd] at h
    exact absurd h (by simp)
  · rw [if_neg hd] at h
    have := Option.some_injective _ h
    subst this
    refine ⟨rfl, rfl, rfl, rfl, rfl, ?_, fun met => rfl⟩
    simpa [List.isEmpty_iff] using hd

theorem aggFor_eq_none (oracle : Nat → Option (List TeamStat)) (mt : List MatchRecord)
    (team mgr comp seas : String) :
    aggFor oracle mt team mgr comp seas = none ↔ collectedFor oracle mt team mgr = [] := by
  rw [aggFor]
  by_cases hd : (collectedFor oracle mt team mgr).isEmpty
  · rw [if_pos hd]
    simpa [List.isEmpty_iff] using hd
  · rw [if_neg hd]
    simp only [List.isEmpty_iff] at hd
    simp [hd]

theorem fetchTeamStats_sound (oracle : Nat → Option (List TeamStat)) (mt : List MatchRecord) :
    ∀ (roster : List MRow) (out : List AggRow),
      fetchTeamStats oracle mt roster = some out →
      ∀ agg ∈ out, ∃ row ∈ roster, row.manager = some agg.manager ∧
        row.team_name = agg.team_name ∧ row.competition = agg.competition ∧
        row.season = agg.season ∧
        aggFor oracle mt row.team_name agg.manager row.competition row.season = some agg := by
  intro roster
  induction roster with
  | nil =>
    intro out h agg hagg
    rw [fetchTeamStats] at h
    have : out = [] := (Option.some_injective _ h).symm
    subst this
    simp at hagg
  | cons row rest ih =>
    intro out h agg hagg
    rw [fetchTeamStats] at h
    cases hm : row.manager with
    | none => simp [hm] at h
    | some mgr =>
      simp only [hm] at h
      cases hrest : fetchTeamStats oracle mt rest with
      | none => simp [hrest] at h
      | some out2 =>
        simp only [hrest] at h
        cases hagg2 : aggFor oracle mt row.team_name mgr row.competition row.season with
        | none =>
          simp only [hagg2] at h
          have : out2 = out := Option.some_injective _ h
          subst this
          obtain ⟨r, hr, hprops⟩ := ih out2 hrest agg hagg
          exact ⟨r, List.mem_cons_of_mem _ hr, hprops⟩
        | some agg2 =>
          simp only [hagg2] at h
          have : agg2 :: out2 = out := Option.some_injective _ h
          subst this
          rcases List.mem_cons.1 hagg with rfl | hagg
          · obtain ⟨ha1, ha2, ha3, ha4, _, _, _⟩ :=
              aggFor_eq oracle mt row.team_name mgr row.competition row.season agg hagg2
            exact ⟨row, List.mem_cons_self _ _,
              by rw [hm, ha1], ha2.symm, ha3.symm, ha4.symm, by rw [ha1]; exact hagg2⟩
          · obtain ⟨r, hr, hprops⟩ := ih out2 hrest agg hagg
            exact ⟨r, List.mem_cons_of_mem _ hr, hprops⟩

theorem fetchTeamStats_length (oracle : Nat → Option (List TeamStat)) (mt : List MatchRecord) :
    ∀ (roster : List MRow) (out : List AggRow),
      fetchTeamStats oracle mt roster = some out →
      out.length = roster.countP (emits oracle mt) := by
  intro roster
  induction roster with
  | nil =>
    intro out h
    have : out = [] := (Option.some_injective _ (h.symm.trans (by rw [fetchTeamStats])))
    simp [this]
  | cons row rest ih =>
    intro out h
    rw [fetchTeamStats] at h
    cases hm : row.manager with
    | none => simp [hm] at h
    | some mgr =>
      simp only [hm] at h
      cases hrest : fetchTeamStats oracle mt rest with
      | none => simp [hrest] at h
      | some out2 =>
        simp only [hrest] at h
        rw [List.countP_cons]
        cases hagg2 : aggFor oracle mt row.team_name mgr row.competition row.season with
        | none =>
          simp only [hagg2] at h
          have : out2 = out := Option.some_injective _ h
          subst this
          have hcoll := (aggFor_eq_none oracle mt row.team_name mgr
            row.competition row.season).1 hagg2
          have hemit : emits oracle mt row = false := by
            simp [emits, hm, hcoll]
          rw [hemit]
          simpa using ih out2 hrest
        | some agg2 =>
          simp only [hagg2] at h
          have : agg2 :: out2 = out := Option.some_injective _ h
          subst this
          have hcoll : collectedFor oracle mt row.team_name mgr ≠ [] :=
            (aggFor_eq oracle mt row.team_name mgr row.competition
              row.season agg2 hagg2).2.2.2.2.2.1
          have hemit : emits oracle mt row = true := by
            simp only [emits, hm]
            cases hc2 : (collectedFor oracle mt row.team_name mgr).isEmpty with
            | true => exact absurd (List.isEmpty_iff.1 hc2) hcoll
            | false => rfl
          rw [hemit]
          simp [ih out2 hrest]

theorem fetchTeamStats_keys (oracle : Nat → Option (List TeamStat)) (mt : List MatchRecord) :
    ∀ (roster : List MRow) (out : List AggRow),
      fetchTeamStats oracle mt roster = some out →
      (out.map akey).Sublist (roster.map mkey) := by
  intro roster
  induction roster with
  | nil =>
    intro out h
    rw [fetchTeamStats] at h
    have : out = [] := (Option.some_injective _ h).symm
    subst this
    simp
  | cons row rest ih =>
    intro out h
    rw [fetchTeamStats] at h
    cases hm : row.manager with
    | none => simp [hm] at h
    | some mgr =>
      simp only [hm] at h
      cases hrest : fetchTeamStats oracle mt rest with
      | none => simp [hrest] at h
      | some out2 =>
        simp only [hrest] at h
        cases hagg2 : aggFor oracle mt row.team_name mgr row.competition row.season with
        | none =>
          simp only [hagg2] at h
          have : out2 = out := Option.some_injective _ h
          subst this
          exact (ih out2 hrest).trans (List.sublist_cons_self _ _)
        | some agg2 =>
          simp only [hagg2] at h
          have : agg2 :: out2 = out := Option.some_injective _ h
          subst this
          rw [List.map_cons, List.map_cons]
          have hk : akey agg2 = mkey row := by
            obtain ⟨h1, h2, h3, h4, _, _, _⟩ :=
              aggFor_eq oracle mt row.team_name mgr row.competition row.season agg2 hagg2
            rw [akey, mkey, h1, h2, h3, h4, hm]
          rw [hk]
          exact (ih out2 hrest).cons₂ _

/-! Properties of the left merge. -/

theorem filter_length_le_one {α β : Type} [DecidableEq β] (k : α → β) (l : List α) (b : β)
    (h : (l.map k).Nodup) : (l.filter (fun a => k a = b)).length ≤ 1 := by
  induction l with
  | nil => simp
  | cons x xs ih =>
    rw [List.map_cons, List.nodup_cons] at h
    by_cases hx : k x = b
    · rw [List.filter_cons_of_pos (by simpa using hx)]
      have hnil : xs.filter (fun a => k a = b) = [] := by
        rw [List.filter_eq_nil_iff]
        intro a ha hka
        have : k a = b := by simpa using hka
        exact h.1 (by rw [← hx] at this; exact this ▸ List.mem_map_of_mem k ha)
      simp [hnil]
    · rw [List.filter_cons_of_neg (by simpa using hx)]
      exact ih h.2

theorem mergeRowsFor_left (right : List AggRow) (l : MRow)
    (h1 : (right.filter (fun a => akey a = mkey l)).length ≤ 1) :
    (mergeRowsFor right l).map (fun mr => mr.left) = [l] := by
  cases hf : right.filter (fun a => akey a = mkey l) with
  | nil => simp [mergeRowsFor, hf]
  | cons a rs =>
    have hrs : rs = [] := by
      rw [hf] at h1
      simp only [List.length_cons] at h1
      have : rs.length = 0 := by omega
      exact List.length_eq_zero.1 this
    subst hrs
    simp [mergeRowsFor, hf]

theorem mergeRowsFor_agg (right : List AggRow) (l : MRow) (mr : MergedRow)
    (hmr : mr ∈ mergeRowsFor right l) :
    mr.left = l ∧ (mr.agg = none ↔ ∀ a ∈ right, akey a ≠ mkey l) := by
  rw [mergeRowsFor] at hmr
  cases hf : right.filter (fun a => akey a = mkey l) with
  | nil =>
    rw [hf] at hmr
    simp only [List.mem_singleton] at hmr
    subst hmr
    refine ⟨rfl, ?_⟩
    simp only [true_iff]
    intro a ha hka
    have : a ∈ right.filter (fun x => akey x = mkey l) :=
      List.mem_filter.2 ⟨ha, by simpa using hka⟩
    rw [hf] at this
    simp at this
  | cons a rs =>
    rw [hf] at hmr
    rw [List.mem_map] at hmr
    obtain ⟨a2, ha2, rfl⟩ := hmr
    refine ⟨rfl, ?_⟩
    have ha2f : a2 ∈ right.filter (fun x => akey x = mkey l) := hf ▸ ha2
    have hmem := List.mem_filter.1 ha2f
    simp only [reduceCtorEq, false_iff, not_forall]
    exact ⟨a2, hmem.1, fun hne => hne (of_decide_eq_true hmem.2)⟩

theorem leftMerge_map_left (left : List MRow) (right : List AggRow)
    (h : (right.map akey).Nodup) :
    (leftMerge left right).map (fun mr => mr.left) = left := by
  induction left with
  | nil => rfl
  | cons l ls ih =>
    simp only [leftMerge, List.flatMap_cons, List.map_append]
    rw [mergeRowsFor_left right l (filter_length_le_one akey right (mkey l) h)]
    simp only [leftMerge] at ih
    rw [ih, List.singleton_append]

theorem leftMerge_mem (left : List MRow) (right : List AggRow) (mr : MergedRow)
    (hmr : mr ∈ leftMerge left right) :
    mr.left ∈ left ∧ (mr.agg = none ↔ ∀ a ∈ right, akey a ≠ mkey mr.left) := by
  rw [leftMerge, List.mem_flatMap] at hmr
  obtain ⟨l, hl, hml⟩ := hmr
  obtain ⟨hleft, hiff⟩ := mergeRowsFor_agg right l mr hml
  subst hleft
  exact ⟨hl, hiff⟩

/-! Properties of the Manager Extractor. -/

theorem iterRoster_nodup (tagged : List MatchRecord) : (iterRoster tagged).Nodup := by
  have h := dropDupBy_key_nodup (fun r : MRow => r) (tagged.map homeRow ++ tagged.map awayRow)
  simpa [iterRoster] using h

theorem mem_iterRoster_tag (comp seas : String) (ms : List RawMatch) (r : MRow)
    (h : r ∈ iterRoster (tagMatches comp seas ms)) :
    r.competition = comp ∧ r.season = seas := by
  have h2 := dropDupBy_mem h
  rw [List.mem_append] at h2
  rcases h2 with h2 | h2 <;>
  · rw [List.mem_map] at h2
    obtain ⟨m, hm, rfl⟩ := h2
    rw [tagMatches, List.mem_map] at hm
    obtain ⟨raw, _, rfl⟩ := hm
    exact ⟨rfl, rfl⟩

theorem iterBlock_fst (oracle : Nat → Nat → Option (List RawMatch))
    (p : (Nat × String) × (Nat × String)) (b : List MRow × List MatchRecord)
    (h : iterBlock oracle p.1 p.2 = some b) :
    b.1.Nodup ∧ ∀ r ∈ b.1, r.competition = p.1.2 ∧ r.season = p.2.2 := by
  rw [iterBlock] at h
  cases ho : oracle p.1.1 p.2.1 with
  | none => rw [ho] at h; simp at h
  | some ms =>
    rw [ho] at h
    simp only [Option.map_some'] at h
    have hb : (iterRoster (tagMatches p.1.2 p.2.2 ms), tagMatches p.1.2 p.2.2 ms) = b :=
      Option.some_injective _ h
    subst hb
    exact ⟨iterRoster_nodup _, fun r hr => mem_iterRoster_tag _ _ _ _ hr⟩

theorem mem_blocks_tag (oracle : Nat → Nat → Option (List RawMatch))
    (ps : List ((Nat × String) × (Nat × String))) (r : MRow)
    (h : r ∈ ((ps.filterMap (fun p => iterBlock oracle p.1 p.2)).map Prod.fst).flatten) :
    ∃ p ∈ ps, r.competition = p.1.2 ∧ r.season = p.2.2 := by
  rw [List.mem_flatten] at h
  obtain ⟨l, hl, hr⟩ := h
  rw [List.mem_map] at hl
  obtain ⟨b, hb, rfl⟩ := hl
  rw [List.mem_filterMap] at hb
  obtain ⟨p, hp, hbp⟩ := hb
  obtain ⟨_, htag⟩ := iterBlock_fst oracle p b hbp
  exact ⟨p, hp, htag r hr⟩

theorem blocks_roster_nodup (oracle : Nat → Nat → Option (List RawMatch)) :
    ∀ ps : List ((Nat × String) × (Nat × String)),
      (ps.map (fun p => (p.1.2, p.2.2))).Nodup →
      (((ps.filterMap (fun p => iterBlock oracle p.1 p.2)).map Prod.fst).flatten).Nodup := by
  intro ps
  induction ps with
  | nil => intro _; simp
  | cons p rest ih =>
    intro h
    rw [List.map_cons, List.nodup_cons] at h
    rw [List.filterMap_cons]
    cases hb : iterBlock oracle p.1 p.2 with
    | none => exact ih h.2
    | some b =>
      rw [List.map_cons, List.flatten_cons]
      obtain ⟨hnb, htag⟩ := iterBlock_fst oracle p b hb
      refine List.Nodup.append hnb (ih h.2) ?_
      intro r hr1 hr2
      obtain ⟨q, hq, hq1, hq2⟩ := mem_blocks_tag oracle rest r hr2
      obtain ⟨hp1, hp2⟩ := htag r hr1
      apply h.1
      rw [List.mem_map]
      refine ⟨q, hq, ?_⟩
      rw [← hq1, ← hq2, hp1, hp2]

theorem pairs_tags_nodup (comps seasons : List (Nat × String))
    (hc : (comps.map Prod.snd).Nodup) (hs : (seasons.map Prod.snd).Nodup) :
    ((comps.flatMap (fun c => seasons.map (fun s => (c, s)))).map
      (fun p => (p.1.2, p.2.2))).Nodup := by
  have key : (comps.flatMap (fun c => seasons.map (fun s => (c, s)))).map
      (fun p => (p.1.2, p.2.2)) =
      (comps.map Prod.snd) ×ˢ (seasons.map Prod.snd) := by
    clear hc
    induction comps with
    | nil => rfl
    | cons c cs ih =>
      rw [List.flatMap_cons, List.map_append, List.map_cons, List.product_cons, ih]
      congr 1
      rw [List.map_map, List.map_map]
      rfl
  rw [key]
  exact hc.product hs

theorem fetchManagerData_some (oracle : Nat → Nat → Option (List RawMatch))
    (comps seasons : List (Nat × String)) (roster : List MRow) (mt : List MatchRecord)
    (h : fetchManagerData oracle comps seasons = some (roster, mt)) :
    roster = (((comps.flatMap (fun c => seasons.map (fun s => (c, s)))).filterMap
      (fun p => iterBlock oracle p.1 p.2)).map Prod.fst).flatten := by
  simp only [fetchManagerData] at h
  split at h
  · exact absurd h (by simp)
  · have h2 := Option.some_injective _ h
    rw [Prod.mk.injEq] at h2
    exact h2.1.symm

/-! Properties of the Filter Engine. -/

theorem geNa_iff (v : Option Nat) (m : Nat) :
    geNa v m = true ↔ ∃ g, v = some g ∧ m ≤ g := by
  cases v <;> simp [geNa]

theorem betweenNa_iff (b : ℚ × ℚ) (v : Option ℚ) :
    betweenNa b v = true ↔ ∃ x, v = some x ∧ b.1 ≤ x ∧ x ≤ b.2 := by
  cases v <;> simp [betweenNa]

theorem passRow_iff (cfg : FilterCfg) (r : FRow) :
    passRow cfg r = true ↔
      (∃ g, r.games_managed = some g ∧ cfg.min_matches ≤ g) ∧
      ∀ m : Metric, ∃ v, r.stats m = some v ∧
        (rangeFor cfg m).1 ≤ v ∧ v ≤ (rangeFor cfg m).2 := by
  rw [passRow]
  simp only [Bool.and_eq_true, geNa_iff, betweenNa_iff]
  constructor
  · rintro ⟨⟨⟨⟨⟨⟨⟨⟨⟨h0, h1⟩, h2⟩, h3⟩, h4⟩, h5⟩, h6⟩, h7⟩, h8⟩, h9⟩
    refine ⟨h0, fun m => ?_⟩
    cases m
    exacts [h1, h2, h3, h4, h5, h6, h7, h8, h9]
  · rintro ⟨h0, hm⟩
    exact ⟨⟨⟨⟨⟨⟨⟨⟨⟨h0, hm Metric.op_xg⟩, hm Metric.sp_xg⟩, hm Metric.ppda⟩,
      hm Metric.counter_shots⟩, hm Metric.op_shot_dist⟩, hm Metric.op_shot_dist_conceded⟩,
      hm Metric.fhalf_pressures⟩, hm Metric.possession⟩, hm Metric.np_xg_conceded⟩

theorem filteredData_eq_nil_iff (cfg : FilterCfg) (rows : List FRow) :
    filteredData cfg rows = [] ↔ ∀ r ∈ rows, passRow cfg r = false := by
  rw [filteredData, List.filter_eq_nil_iff]
  simp only [Bool.not_eq_true]

/-! Helpers for instantiating the theorems at concrete fixtures. -/

theorem eq_some_getD {α : Type} (o : Option α) (d : α) (h : o.isSome = true) :
    o = some (o.getD d) := by
  cases o with
  | none => simp at h
  | some x => rfl

theorem fetchTeamStats_isSome (oracle : Nat → Option (List TeamStat)) (mt : List MatchRecord) :
    ∀ roster : List MRow, (∀ row ∈ roster, row.manager.isSome = true) →
      (fetchTeamStats oracle mt roster).isSome = true := by
  intro roster
  induction roster with
  | nil => intro _; rw [fetchTeamStats]; rfl
  | cons row rest ih =>
    intro h
    rw [fetchTeamStats]
    cases hm : row.manager with
    | none =>
      have := h row (List.mem_cons_self _ _)
      rw [hm] at this
      simp at this
    | some mgr =>
      have hrest := ih (fun r hr => h r (List.mem_cons_of_mem _ hr))
      cases hr2 : fetchTeamStats oracle mt rest with
      | none => rw [hr2] at hrest; simp at hrest
      | some out2 =>
        cases haf : aggFor oracle mt row.team_name mgr row.competition row.season with
        | none => simp [haf]
        | some agg => simp [haf]

theorem c2_teamMatches : teamMatchesFor c2Matches "T" "M" = c2Matches := by decide

theorem c2_unique : uniqueIds (c2Matches.map (fun m => m.match_id)) = [1, 2, 3] := by
  simp [c2Matches, c2Match, uniqueIds, dropDupBy]

theorem c2_vals :
    (collectedFor c2Oracle c2Matches "T" "M").map (fun t => t.stats Metric.op_xg) =
      [1, 2, 3] := by
  rw [collectedFor, c2_teamMatches, c2_unique]
  simp [collectStats, c2Oracle]

theorem c2_len : (collectedFor c2Oracle c2Matches "T" "M").length = 3 := by
  have h := congrArg List.length c2_vals
  simpa using h

theorem c2_collected_ne : collectedFor c2Oracle c2Matches "T" "M" ≠ [] := by
  intro h
  have h2 := c2_vals
  rw [h] at h2
  simp at h2

theorem c2_hts : fetchTeamStats c2Oracle c2Matches c2Roster = some c2Out :=
  eq_some_getD _ _ (fetchTeamStats_isSome c2Oracle c2Matches c2Roster (by decide))

/-- C2: every aggregated numeric field of a retained assignment equals the
arithmetic mean of that field over exactly the statistics rows collected for
that assignment, and an assignment with no collected rows is dropped from the
output entirely (the output length counts exactly the roster rows that emit). -/
theorem C2_aggregate_mean (oracle : Nat → Option (List TeamStat)) (mt : List MatchRecord)
    (roster : List MRow) (out : List AggRow)
    (h : fetchTeamStats oracle mt roster = some out) :
    (∀ agg ∈ out, ∃ row ∈ roster,
      row.manager = some agg.manager ∧ row.team_name = agg.team_name ∧
      row.competition = agg.competition ∧ row.season = agg.season ∧
      collectedFor oracle mt agg.team_name agg.manager ≠ [] ∧
      ∀ met : Metric, agg.stats met =
        ((collectedFor oracle mt agg.team_name agg.manager).map (fun t => t.stats met)).sum /
          (collectedFor oracle mt agg.team_name agg.manager).length) ∧
    out.length = roster.countP (emits oracle mt) := by
  constructor
  · intro agg hagg
    obtain ⟨row, hrow, hm, ht, hc, hs, haggFor⟩ :=
      fetchTeamStats_sound oracle mt roster out h agg hagg
    obtain ⟨_, _, _, _, _, e6, e7⟩ :=
      aggFor_eq oracle mt row.team_name agg.manager row.competition row.season agg haggFor
    rw [ht] at e6 e7
    exact ⟨row, hrow, hm, ht, hc, hs, e6, e7⟩
  · exact fetchTeamStats_length oracle mt roster out h

/-- C2 witness: on the spec fixture (three matches with collected values 1, 2
and 3) the theorem applies, exactly one assignment is retained, and its
aggregated value is the mean 2. -/
theorem C2_aggregate_mean_witness :
    ((∀ agg ∈ c2Out, ∃ row ∈ c2Roster,
      row.manager = some agg.manager ∧ row.team_name = agg.team_name ∧
      row.competition = agg.competition ∧ row.season = agg.season ∧
      collectedFor c2Oracle c2Matches agg.team_name agg.manager ≠ [] ∧
      ∀ met : Metric, agg.stats met =
        ((collectedFor c2Oracle c2Matches agg.team_name agg.manager).map
          (fun t => t.stats met)).sum /
          (collectedFor c2Oracle c2Matches agg.team_name agg.manager).length) ∧
    c2Out.length = c2Roster.countP (emits c2Oracle c2Matches)) ∧
    c2Out.map (fun a => a.stats Metric.op_xg) = [2] := by
  have hmain := C2_aggregate_mean c2Oracle c2Matches c2Roster c2Out c2_hts
  refine ⟨hmain, ?_⟩
  have hlen : c2Out.length = 1 := by
    rw [hmain.2]
    have he : emits c2Oracle c2Matches ⟨"T", some "M", "C", "S"⟩ = true := by
      simp only [emits]
      cases hc : (collectedFor c2Oracle c2Matches "T" "M").isEmpty
      · rfl
      · exact absurd (List.isEmpty_iff.1 hc) c2_collected_ne
    simp [c2Roster, List.countP_cons, he]
  obtain ⟨agg, hout⟩ := List.length_eq_one.1 hlen
  obtain ⟨row, hrow, hm, ht, _, _, _, hmean⟩ :=
    hmain.1 agg (by rw [hout]; exact List.mem_cons_self _ _)
  have hrowval : row = ⟨"T", some "M", "C", "S"⟩ := by
    have := hrow
    simp only [c2Roster, List.mem_singleton] at this
    exact this
  have hteam : agg.team_name = "T" := by rw [hrowval] at ht; exact ht.symm
  have hmgr : agg.manager = "M" := by
    rw [hrowval] at hm
    exact (Option.some_injective _ hm).symm
  rw [hout, List.map_cons, List.map_nil]
  have := hmean Metric.op_xg
  rw [hteam, hmgr, c2_vals, c2_len] at this
  rw [this]
  norm_num

theorem c1_teamMatches : teamMatchesFor c1Matches "T" "M" = c1Matches := by decide

theorem c1_collected : collectedFor c1Oracle c1Matches "T" "M" = [⟨"T", fun _ => 1⟩] := by
  rw [collectedFor, c1_teamMatches]
  have hu : uniqueIds (c1Matches.map (fun m => m.match_id)) = [1] := by
    simp [c1Matches, c1Match, uniqueIds, dropDupBy]
  rw [hu]
  simp [collectStats, c1Oracle]

/-- C1 counterexample: on a match set containing the same match row (identifier
1) twice, the emitted games_managed is 2 — the number of selected rows — while
the number of distinct match identifiers satisfying the predicate is 1. -/
theorem C1_counterexample :
    (fetchTeamStats c1Oracle c1Matches c1Roster).map
      (fun out => out.map (fun a => a.games_managed)) = some [2] ∧
    (uniqueIds ((teamMatchesFor c1Matches "T" "M").map (fun m => m.match_id))).length = 1 := by
  constructor
  · have hts := eq_some_getD (fetchTeamStats c1Oracle c1Matches c1Roster) []
      (fetchTeamStats_isSome c1Oracle c1Matches c1Roster (by decide))
    obtain ⟨out, hts2⟩ : ∃ out, fetchTeamStats c1Oracle c1Matches c1Roster = some out :=
      ⟨_, hts⟩
    rw [hts2, Option.map_some']
    have hne : collectedFor c1Oracle c1Matches "T" "M" ≠ [] := by
      rw [c1_collected]
      simp
    have he : emits c1Oracle c1Matches ⟨"T", some "M", "C", "S"⟩ = true := by
      simp only [emits]
      cases hc : (collectedFor c1Oracle c1Matches "T" "M").isEmpty
      · rfl
      · exact absurd (List.isEmpty_iff.1 hc) hne
    have hlen : out.length = 1 := by
      rw [fetchTeamStats_length c1Oracle c1Matches c1Roster out hts2]
      simp [c1Roster, he]
    obtain ⟨agg, rfl⟩ := List.length_eq_one.1 hlen
    obtain ⟨row, hrow, hm, ht, _, _, haggFor⟩ :=
      fetchTeamStats_sound c1Oracle c1Matches c1Roster [agg] hts2 agg (List.mem_cons_self _ _)
    have hrowval : row = ⟨"T", some "M", "C", "S"⟩ := by simpa [c1Roster] using hrow
    have hmgr : agg.manager = "M" := by
      rw [hrowval] at hm
      exact (Option.some_injective _ hm).symm
    have e5 := (aggFor_eq c1Oracle c1Matches row.team_name agg.manager row.competition
      row.season agg haggFor).2.2.2.2.1
    simp only [hrowval, hmgr] at e5
    have hlen2 : (teamMatchesFor c1Matches "T" "M").length = 2 := by decide
    simp [e5, hlen2]
  · rw [c1_teamMatches]
    simp [c1Matches, c1Match, uniqueIds, dropDupBy]

/-- C1 (amended): for every assignment emitted by `fetch_team_stats`,
games_managed equals the number of match rows of the supplied set satisfying
the predicate (the source counts rows, `len(team_matches)`); whenever those
rows carry pairwise-distinct match identifiers — in particular whenever the
supplied match set has no duplicated rows per identifier — this coincides with
the number of distinct match identifiers satisfying the predicate. -/
theorem C1_games_managed (oracle : Nat → Option (List TeamStat)) (mt : List MatchRecord)
    (roster : List MRow) (out : List AggRow)
    (h : fetchTeamStats oracle mt roster = some out) :
    ∀ agg ∈ out, ∃ row ∈ roster,
      row.manager = some agg.manager ∧ row.team_name = agg.team_name ∧
      agg.games_managed = (teamMatchesFor mt agg.team_name agg.manager).length ∧
      (((teamMatchesFor mt agg.team_name agg.manager).map (fun m => m.match_id)).Nodup →
        agg.games_managed =
          (uniqueIds ((teamMatchesFor mt agg.team_name agg.manager).map
            (fun m => m.match_id))).length) := by
  intro agg hagg
  obtain ⟨row, hrow, hm, ht, _, _, haggFor⟩ :=
    fetchTeamStats_sound oracle mt roster out h agg hagg
  have e5 := (aggFor_eq oracle mt row.team_name agg.manager row.competition
    row.season agg haggFor).2.2.2.2.1
  rw [ht] at e5
  refine ⟨row, hrow, hm, ht, e5, fun hnd => ?_⟩
  rw [uniqueIds, dropDupBy_eq_self _ _ (by simpa using hnd), List.length_map]
  exact e5

/-- C1 witness: the amended theorem applied to the three-match fixture, whose
selected rows have the distinct identifiers 1, 2 and 3; the retained
assignment's games_managed is 3. -/
theorem C1_games_managed_witness :
    (∀ agg ∈ c2Out, ∃ row ∈ c2Roster,
      row.manager = some agg.manager ∧ row.team_name = agg.team_name ∧
      agg.games_managed = (teamMatchesFor c2Matches agg.team_name agg.manager).length ∧
      (((teamMatchesFor c2Matches agg.team_name agg.manager).map
        (fun m => m.match_id)).Nodup →
        agg.games_managed =
          (uniqueIds ((teamMatchesFor c2Matches agg.team_name agg.manager).map
            (fun m => m.match_id))).length)) ∧
    c2Out.map (fun a => a.games_managed) = [3] := by
  have hmain := C1_games_managed c2Oracle c2Matches c2Roster c2Out c2_hts
  refine ⟨hmain, ?_⟩
  have hlen : c2Out.length = 1 := by
    rw [fetchTeamStats_length c2Oracle c2Matches c2Roster c2Out c2_hts]
    have he : emits c2Oracle c2Matches ⟨"T", some "M", "C", "S"⟩ = true := by
      simp only [emits]
      cases hc : (collectedFor c2Oracle c2Matches "T" "M").isEmpty
      · rfl
      · exact absurd (List.isEmpty_iff.1 hc) c2_collected_ne
    simp [c2Roster, he]
  obtain ⟨agg, hout⟩ := List.length_eq_one.1 hlen
  obtain ⟨row, hrow, hm, ht, hgames, _⟩ :=
    hmain agg (by rw [hout]; exact List.mem_cons_self _ _)
  have hrowval : row = ⟨"T", some "M", "C", "S"⟩ := by simpa [c2Roster] using hrow
  have hteam : agg.team_name = "T" := by rw [hrowval] at ht; exact ht.symm
  have hmgr : agg.manager = "M" := by
    rw [hrowval] at hm
    exact (Option.some_injective _ hm).symm
  rw [hout, List.map_cons, List.map_nil]
  rw [hteam, hmgr, c2_teamMatches] at hgames
  have hlen3 : c2Matches.length = 3 := by decide
  rw [hgames, hlen3]

/-- C3: when the roster carries no duplicate (team_name, manager, competition,
season) key tuples, every roster row appears exactly once (in order) in the
left-merged output, and a merged row has null aggregate columns exactly when no
aggregated row matched its key. -/
theorem C3_merge_non_lossy (oracle : Nat → Option (List TeamStat)) (mt : List MatchRecord)
    (roster : List MRow) (ts : List AggRow)
    (hnd : (roster.map mkey).Nodup)
    (hts : fetchTeamStats oracle mt roster = some ts) :
    ((leftMerge roster ts).map (fun mr => mr.left) = roster) ∧
    ∀ mr ∈ leftMerge roster ts, (mr.agg = none ↔ ∀ a ∈ ts, akey a ≠ mkey mr.left) := by
  have hkeys : (ts.map akey).Nodup :=
    (fetchTeamStats_keys oracle mt roster ts hts).nodup hnd
  exact ⟨leftMerge_map_left roster ts hkeys,
    fun mr hmr => (leftMerge_mem roster ts mr hmr).2⟩

/-- C3 witness: a two-row roster with distinct keys, one row with an aggregate
and one without; both appear exactly once in the merged output. -/
theorem C3_merge_non_lossy_witness :
    ((c3Roster.map mkey).Nodup) ∧
    ((leftMerge c3Roster c3Ts).map (fun mr => mr.left) = c3Roster) ∧
    (∀ mr ∈ leftMerge c3Roster c3Ts, (mr.agg = none ↔ ∀ a ∈ c3Ts, akey a ≠ mkey mr.left)) ∧
    (leftMerge c3Roster c3Ts).length = 2 := by
  have hnd : (c3Roster.map mkey).Nodup := by decide
  have hts : fetchTeamStats c3Oracle c3Matches c3Roster = some c3Ts :=
    eq_some_getD _ _ (fetchTeamStats_isSome c3Oracle c3Matches c3Roster (by decide))
  have hmain := C3_merge_non_lossy c3Oracle c3Matches c3Roster c3Ts hnd hts
  refine ⟨hnd, hmain.1, hmain.2, ?_⟩
  have hl := congrArg List.length hmain.1
  rw [List.length_map] at hl
  rw [hl]
  decide

/-- C7: for every input match oracle, the extracted roster contains no two
identical (team_name, manager, competition, season) tuples, given that the
competition display names are pairwise distinct and the season display names
are pairwise distinct (as the hard-coded COMPETITIONS and SEASONS tables of
the source are). -/
theorem C7_roster_nodup (oracle : Nat → Nat → Option (List RawMatch))
    (comps seasons : List (Nat × String))
    (hc : (comps.map Prod.snd).Nodup) (hs : (seasons.map Prod.snd).Nodup)
    (roster : List MRow) (mt : List MatchRecord)
    (h : fetchManagerData oracle comps seasons = some (roster, mt)) :
    roster.Nodup := by
  rw [fetchManagerData_some oracle comps seasons roster mt h]
  exact blocks_roster_nodup oracle _ (pairs_tags_nodup comps seasons hc hs)

/-- C7 witness: the theorem applied to a one-competition, one-season fetch that
succeeds with one match. -/
theorem C7_roster_nodup_witness :
    ((c7Comps.map Prod.snd).Nodup ∧ (c7Seasons.map Prod.snd).Nodup) ∧ c7Res.1.Nodup := by
  have hsome : (fetchManagerData c7Oracle c7Comps c7Seasons).isSome = true := by
    simp [fetchManagerData, iterBlock, c7Oracle, c7Comps, c7Seasons]
  have h : fetchManagerData c7Oracle c7Comps c7Seasons = some (c7Res.1, c7Res.2) :=
    eq_some_getD _ ([], []) hsome
  exact ⟨⟨by decide, by decide⟩,
    C7_roster_nodup c7Oracle c7Comps c7Seasons (by decide) (by decide) c7Res.1 c7Res.2 h⟩

/-- C10: when the match fetch fails for every selected competition/season pair,
`fetch_manager_data` does not return empty tables — the final `pd.concat` over
zero collected frames raises, modelled as a `none` result. -/
theorem C10_total_failure (oracle : Nat → Nat → Option (List RawMatch))
    (comps seasons : List (Nat × String))
    (h : ∀ c ∈ comps, ∀ s ∈ seasons, oracle c.1 s.1 = none) :
    fetchManagerData oracle comps seasons = none := by
  have hblocks : (comps.flatMap (fun c => seasons.map (fun s => (c, s)))).filterMap
      (fun p => iterBlock oracle p.1 p.2) = [] := by
    rw [List.filterMap_eq_nil_iff]
    intro p hp
    rw [List.mem_flatMap] at hp
    obtain ⟨c, hc, hp⟩ := hp
    rw [List.mem_map] at hp
    obtain ⟨s, hs, rfl⟩ := hp
    rw [iterBlock, h c hc s hs]
    rfl
  simp [fetchManagerData, hblocks]

/-- C10 witness: an oracle that always fails, one competition and one season. -/
theorem C10_total_failure_witness :
    fetchManagerData (fun _ _ => none) [(1, "A")] [(10, "S")] = none :=
  C10_total_failure (fun _ _ => none) [(1, "A")] [(10, "S")] (fun _ _ _ _ => rfl)

/-- C8: after the clean stage, each (manager, team_name, competition) key
appears in at most one row; every surviving row has a present, non-empty
manager; and each output row is the first-encountered row of its key among the
manager-present input rows, with the season column dropped (the output row type
carries no season field). -/
theorem C8_clean_stage (rows : List CRow) :
    ((cleanStage rows).map fkey).Nodup ∧
    (∀ f ∈ cleanStage rows, ∃ s, f.manager = some s ∧ s ≠ "") ∧
    (∀ f ∈ cleanStage rows, ∃ c,
      (rows.filter managerPresent).find? (fun x => decide (ckey x = fkey f)) = some c ∧
      dropSeason c = f) := by
  refine ⟨?_, ?_, ?_⟩
  · rw [cleanStage, List.map_map]
    have hcomp : fkey ∘ dropSeason = ckey := by
      funext r
      rfl
    rw [hcomp]
    exact dropDupBy_key_nodup ckey _
  · intro f hf
    rw [cleanStage, List.mem_map] at hf
    obtain ⟨c, hc, rfl⟩ := hf
    have hp := (List.mem_filter.1 (dropDupBy_mem hc)).2
    cases hm : c.manager with
    | none => rw [managerPresent, hm] at hp; simp at hp
    | some s =>
      simp only [managerPresent, hm] at hp
      exact ⟨s, by simpa [dropSeason] using hm, of_decide_eq_true hp⟩
  · intro f hf
    rw [cleanStage, List.mem_map] at hf
    obtain ⟨c, hc, rfl⟩ := hf
    exact ⟨c, dropDupBy_find ckey (rows.filter managerPresent) c hc, rfl⟩

/-- C9: filtering never fails (the embedded filter is a total function), and
the displayed outcome is the explicit no-matches signal exactly when no input
row qualifies. -/
theorem C9_empty_result_signal (cfg : FilterCfg) (rows : List FRow) :
    displayOutcome (filteredData cfg rows) = DisplayResult.noMatches ↔
      ∀ r ∈ rows, passRow cfg r = false := by
  constructor
  · intro h
    by_cases he : (filteredData cfg rows).isEmpty
    · exact (filteredData_eq_nil_iff cfg rows).1 (List.isEmpty_iff.1 he)
    · rw [displayOutcome, if_neg he] at h
      exact absurd h (by simp)
  · intro hall
    rw [displayOutcome, (filteredData_eq_nil_iff cfg rows).2 hall]
    rfl

/-- C4: the filter retains exactly the rows whose games_managed is present and
at least the configured minimum and whose every metric value is present and
lies in the inclusive interval of its configured bound; on the fixture with
bound 0 to 3 and open-play xG values -1, 0, 1.5, 3 and 4, exactly the rows
with values 0, 1.5 and 3 are retained (both endpoints inclusive). -/
theorem C4_filter_engine :
    (∀ (cfg : FilterCfg) (rows : List FRow) (r : FRow),
      r ∈ filteredData cfg rows ↔
        r ∈ rows ∧ (∃ g, r.games_managed = some g ∧ cfg.min_matches ≤ g) ∧
        ∀ m : Metric, ∃ v, r.stats m = some v ∧
          (rangeFor cfg m).1 ≤ v ∧ v ≤ (rangeFor cfg m).2) ∧
    (filteredData c4Cfg c4Rows).map (fun r => r.stats Metric.op_xg) =
      [some 0, some (3 / 2), some 3] := by
  constructor
  · intro cfg rows r
    rw [filteredData, List.mem_filter, passRow_iff]
  · norm_num [filteredData, c4Cfg, c4Rows, sampleRow, passRow, geNa, betweenNa, List.filter]

/-- C6 code evaluation: pandas `between` keeps its arguments in the order
given, so the PPDA bound configured as the pair (18.0, 0.0) rejects the value
9 even though 9 lies between 0 and 18 inclusive; with that bound the filter
returns no rows. -/
theorem C6_between_order_sensitive :
    betweenNa c6Cfg.ppda_range (c6Row.stats Metric.ppda) = false ∧
    ((0 : ℚ) ≤ 9 ∧ (9 : ℚ) ≤ 18) ∧
    filteredData c6Cfg [c6Row] = [] := by
  refine ⟨?_, ⟨by norm_num, by norm_num⟩, ?_⟩
  · norm_num [c6Cfg, c6Row, betweenNa]
  · have hp : passRow c6Cfg c6Row = false := by
      norm_num [passRow, c6Cfg, c6Row, geNa, betweenNa]
    simp [filteredData, hp]

/-- C5 counterexample: the manager name is handed to pandas `str.contains` as
a regular expression (the default `regex=True`), not as a plain substring: with
the name "A. B" the match whose home manager field is "AX B" is selected by the
source predicate although "A. B" is not a plain substring of "AX B". -/
theorem C5_counterexample :
    teamMatchPred "T" "A. B" c5Match = true ∧ plainSub "A. B" "AX B" = false ∧
    c5Match.home_managers = some "AX B" :=
  ⟨by decide, by decide, rfl⟩

/-- C5 (amended): the predicate treats the manager name as a regular
expression searched in the manager field, case-sensitively; whenever the name
contains no regex metacharacters this coincides with plain substring
containment, so on such names a match is selected exactly when the team
matches and the manager field literally contains the name (including
multi-manager fields such as "A, B"). -/
theorem C5_predicate_regex (team mgr : String) (m : MatchRecord)
    (hp : ∀ c ∈ mgr.data, isMeta c = false) :
    teamMatchPred team mgr m = specMatchPred team mgr m := by
  rw [teamMatchPred, specMatchPred]
  have h1 : ∀ s : Option String, containsNa mgr s = plainSubNa mgr s := by
    intro s
    cases s with
    | none => rfl
    | some t =>
      simp only [containsNa, plainSubNa]
      exact strContains_literal mgr t hp
  rw [h1 m.home_managers, h1 m.away_managers]

/-- C5 witness: on the metacharacter-free name "A" both predicates agree; the
multi-manager field "A, B" is selected by containment though it does not equal
the name, and the lower-case name "a" is not selected (case-sensitive). -/
theorem C5_predicate_regex_witness :
    (∀ c ∈ ("A" : String).data, isMeta c = false) ∧
    teamMatchPred "T" "A" c5MultiMatch = specMatchPred "T" "A" c5MultiMatch ∧
    teamMatchPred "T" "A" c5MultiMatch = true ∧
    c5MultiMatch.home_managers ≠ some "A" ∧
    teamMatchPred "T" "a" c5MultiMatch = false :=
  ⟨by decide, C5_predicate_regex "T" "A" c5MultiMatch (by decide),
    by decide, by decide, by decide⟩
